import Mathlib

/-!
# Verification of the frame / draw-contract core of a terminal rendering engine

Shallow embedding of `src/widgets.rs` and `src/terminal/frame.rs`:
the draw contract (`Widget`, `WidgetRef`, the blanket implementation
`impl<W: WidgetRef> Widget for &W`, and `render_str`) and the per-cycle
`Frame` handle (`size`, `set_cursor`, `buffer_mut`, `count`).

The `Buffer` (Canvas) collaborator is not part of the given source tree;
its operations used by the source (`Buffer::set_string`) are modelled
from the specification (§4.1 of the spec), see the doc comments below.
-/

/-- A rectangular area: origin plus width and height.  The source's `Rect`
uses `u16` fields; coordinates here are natural numbers, which is faithful
for all in-range values (no arithmetic in the embedded operations can
overflow a `u16`-sized bound in a way the claims depend on). -/
structure Rect where
  x : Nat
  y : Nat
  width : Nat
  height : Nat
deriving DecidableEq

/-- The first column to the right of the area. -/
def Rect.right (r : Rect) : Nat := r.x + r.width

/-- The first row below the area. -/
def Rect.bottom (r : Rect) : Nat := r.y + r.height

/-- Modelled from the spec: a style is a foreground, a background and a set
of text attributes (§3 "Cell").  The concrete colour/attribute model is
external to the specified core; an abstract renaming-free encoding is used.
Equality is decidable field-wise, as the spec requires for cell equality. -/
structure Style where
  fg : Option Nat
  bg : Option Nat
  modifiers : Nat
deriving DecidableEq

/-- `Style::default()`: no colours, no attributes. -/
def Style.default : Style := ⟨none, none, 0⟩

/-- Modelled from the spec: smallest addressable unit, a displayed symbol
plus a style (§3 "Cell").  Symbols are single characters here; the claims
under verification only involve width-1 symbols. -/
structure Cell where
  symbol : Char
  style : Style
deriving DecidableEq

/-- The default cell: blank symbol, default style (§4.1 `resize`). -/
def Cell.default : Cell := ⟨' ', Style.default⟩

/-- Modelled from the spec: a Canvas is a rectangular area owning a flat
row-major sequence of cells, length = width × height (§3 "Canvas"). -/
structure Buffer where
  area : Rect
  content : List Cell
deriving DecidableEq

/-- The Canvas representation invariant: `length = width × height` (§3). -/
def Buffer.wf (b : Buffer) : Prop :=
  b.content.length = b.area.width * b.area.height

instance (b : Buffer) : Decidable b.wf := by
  unfold Buffer.wf
  infer_instance

/-- Modelled from the spec: the row-major index of an in-bounds coordinate,
`none` when the coordinate lies outside the Canvas's area (§3: "every
in-bounds coordinate maps to exactly one cell index"). -/
def Buffer.indexOf (b : Buffer) (x y : Nat) : Option Nat :=
  if b.area.x ≤ x ∧ x < b.area.right ∧ b.area.y ≤ y ∧ y < b.area.bottom then
    some ((y - b.area.y) * b.area.width + (x - b.area.x))
  else
    none

/-- Modelled from the spec: `set_cell(coordinate, Cell)` silently ignores
writes outside the area (§4.1) — there is no failure branch. -/
def Buffer.setCell (b : Buffer) (x y : Nat) (c : Cell) : Buffer :=
  match b.indexOf x y with
  | some i => { b with content := b.content.set i c }
  | none => b

/-- Modelled from the spec: `cell_at(coordinate)` returns the stored cell
for an in-bounds coordinate and fails (`none`) outside the area (§4.1). -/
def Buffer.getCell (b : Buffer) (x y : Nat) : Option Cell :=
  match b.indexOf x y with
  | some i => b.content[i]?
  | none => none

/-- Modelled from the spec: the cell-by-cell loop of `set_text`: writes a
run left-to-right starting at `(x, y)`, truncating at the Canvas's right
edge (§4.1); each individual write clips via `setCell`. -/
def Buffer.setStringAux (b : Buffer) (x y : Nat) (cs : List Char) (st : Style) : Buffer :=
  match cs with
  | [] => b
  | c :: rest =>
    if x < b.area.right then
      (b.setCell x y ⟨c, st⟩).setStringAux (x + 1) y rest st
    else
      b

/-- Modelled from the spec: `Buffer::set_string` — `set_text(coordinate,
text, style)` writes a run of cells left-to-right starting at the
coordinate, truncating at the Canvas's right edge (§4.1).  The claims in
scope involve only width-1 characters, so each character occupies one
cell. -/
def Buffer.set_string (b : Buffer) (x y : Nat) (s : String) (st : Style) : Buffer :=
  b.setStringAux x y s.toList st

/-- The consuming draw capability (`trait Widget`, src/widgets.rs:100-106):
a widget is a command that paints itself into an area of a buffer.  Rust's
`fn render(self, area, buf: &mut Buffer)` becomes a total function from
the area and the incoming buffer to the outgoing buffer. -/
structure Widget where
  render : Rect → Buffer → Buffer

/-- The reference draw capability (`trait WidgetRef`,
src/widgets.rs:180-184): renders via a borrowed reference; in the
embedding, again a total buffer transformer. -/
structure WidgetRef where
  render_ref : Rect → Buffer → Buffer

/-- The blanket implementation `impl<W: WidgetRef> Widget for &W`
(src/widgets.rs:186-191): `fn render(self, area, buf) {
self.render_ref(area, buf); }`. -/
def WidgetRef.toWidget (w : WidgetRef) : Widget :=
  ⟨fun area buf => w.render_ref area buf⟩

/-- `render_str` (src/widgets.rs:194-196): `buf.set_string(area.x, area.y,
s, Style::default())`. -/
def render_str (s : String) (area : Rect) (buf : Buffer) : Buffer :=
  buf.set_string area.x area.y s Style.default

/-- The per-cycle `Frame` handle (src/terminal/frame.rs:14-29): cursor
intent, viewport area, the buffer drawn into, and the sequence counter.
The `usize` counter is a natural number; the driver keeps it below
`2 ^ 64` (see `nextFrameCount`). -/
structure Frame where
  cursor_position : Option (Nat × Nat)
  viewport_area : Rect
  buffer : Buffer
  count : Nat

/-- `Frame::size` (src/terminal/frame.rs:52-54): returns the viewport
area; a `const fn` on `&self`. -/
def Frame.size (f : Frame) : Rect := f.viewport_area

/-- `Frame::set_cursor` (src/terminal/frame.rs:62-64):
`self.cursor_position = Some((x, y));`. -/
def Frame.set_cursor (f : Frame) (x y : Nat) : Frame :=
  { f with cursor_position := some (x, y) }

/-- `Frame::buffer_mut` (src/terminal/frame.rs:67-69): returns the frame's
own buffer (`self.buffer`).  A `&mut` return is embedded as a lens: the
first component is the buffer handed out, the second the frame as the call
itself leaves it. -/
def Frame.buffer_mut (f : Frame) : Buffer × Frame :=
  (f.buffer, f)

/-- One application-visible operation on a `Frame` during a cycle.
`bufferMut g` is a drawing action through the reference returned by
`buffer_mut` (the only way application code mutates the canvas); `size`
and `count` are the `&self` observers. -/
inductive FrameOp where
  | setCursor (x y : Nat)
  | size
  | bufferMut (g : Buffer → Buffer)
  | count

/-- Whether an operation is a `set_cursor` call. -/
def FrameOp.isSetCursor : FrameOp → Bool
  | .setCursor _ _ => true
  | _ => false

/-- The state effect of one `Frame` operation.  `size` and `count` take
`&self` and cannot mutate; `set_cursor` assigns the cursor field;
drawing through `buffer_mut` replaces the buffer contents only. -/
def Frame.applyOp (f : Frame) : FrameOp → Frame
  | .setCursor x y => f.set_cursor x y
  | .size => f
  | .bufferMut g => { f with buffer := g f.buffer }
  | .count => f

/-- A sequence of operations performed on a `Frame` during one cycle. -/
def Frame.applyOps (f : Frame) (ops : List FrameOp) : Frame :=
  ops.foldl Frame.applyOp f

/-- Modelled from the spec: the render driver (not in the given source
tree) increments the frame count once per completed cycle, wrapping to
zero on overflow rather than failing (§4.4 `count()`, frame.rs doc
comment lines 77-79).  `usize` is 64 bits on the supported targets. -/
def nextFrameCount (c : Nat) : Nat := (c + 1) % 2 ^ 64

/-- C1: For every type implementing the reference draw capability
(`WidgetRef`), every area and every buffer, the consuming draw capability
obtained through the blanket implementation `impl<W: WidgetRef> Widget for
&W` produces exactly the same final buffer as calling `render_ref`
directly: the reference-drawable satisfies the consuming contract by
delegation. -/
theorem widget_blanket_impl_delegates (w : WidgetRef) (area : Rect) (buf : Buffer) :
    (w.toWidget).render area buf = w.render_ref area buf := rfl

/-- C3: After any sequence of `set_cursor` calls on a frame ending in a
call with coordinates `(x, y)`, the recorded cursor intent is exactly
`some (x, y)`: each call overwrites the prior value, so only the last
coordinate takes effect. -/
theorem set_cursor_last_write_wins (f : Frame) (ps : List (Nat × Nat)) (x y : Nat) :
    (((ps ++ [(x, y)]).foldl (fun g p => g.set_cursor p.1 p.2) f)).cursor_position
      = some (x, y) := by
  induction ps generalizing f with
  | nil => rfl
  | cons p rest ih => simpa using ih (f.set_cursor p.1 p.2)

/-- C4: If `set_cursor` is never called during a cycle, the cursor intent
stays `none` (cursor hidden): no other `Frame` operation — `size`,
`count`, or any drawing through `buffer_mut` — ever makes
`cursor_position` become `some`. -/
theorem cursor_hidden_without_set_cursor (f : Frame) (ops : List FrameOp)
    (h0 : f.cursor_position = none)
    (hops : ∀ op ∈ ops, op.isSetCursor = false) :
    (f.applyOps ops).cursor_position = none := by
  induction ops generalizing f with
  | nil => exact h0
  | cons op rest ih =>
    have hop : op.isSetCursor = false := hops op (List.mem_cons_self op rest)
    have hrest : ∀ op' ∈ rest, op'.isSetCursor = false :=
      fun op' h' => hops op' (List.mem_cons_of_mem op h')
    have hstep : (f.applyOp op).cursor_position = none := by
      cases op with
      | setCursor x y => simp [FrameOp.isSetCursor] at hop
      | size => exact h0
      | bufferMut g => exact h0
      | count => exact h0
    exact ih (f.applyOp op) hstep hrest

/-- C4 witness: a concrete frame whose cycle performs a `size` read, a
drawing action through `buffer_mut`, and a `count` read, but no
`set_cursor`; the cursor intent stays hidden. -/
theorem cursor_hidden_without_set_cursor_witness :
    (Frame.applyOps ⟨none, ⟨0, 0, 5, 1⟩, ⟨⟨0, 0, 5, 1⟩, List.replicate 5 Cell.default⟩, 0⟩
      [FrameOp.size, FrameOp.bufferMut (fun b => b.set_string 0 0 "Hi" Style.default),
       FrameOp.count]).cursor_position = none := by
  apply cursor_hidden_without_set_cursor
  · rfl
  · intro op hop
    simp only [List.mem_cons, List.not_mem_nil, or_false] at hop
    rcases hop with h | h | h <;> subst h <;> rfl

/-- C5: The frame sequence counter is incremented once per completed cycle
and wraps modulo the counter's width rather than failing: from any
in-range count, the driver's next count is `count + 1`, except that from
the maximum representable value (`usize::MAX = 2 ^ 64 - 1`) it wraps to
`0` — never an error. -/
theorem frame_count_wraps (f : Frame) (h : f.count < 2 ^ 64) :
    nextFrameCount f.count = if f.count = 2 ^ 64 - 1 then 0 else f.count + 1 := by
  unfold nextFrameCount
  split <;> omega

/-- C5 witness: a frame whose count is `usize::MAX`; one more completed
cycle yields count `0`. -/
theorem frame_count_wraps_witness :
    (2 ^ 64 - 1 : Nat) < 2 ^ 64 ∧
      nextFrameCount (Frame.count ⟨none, ⟨0, 0, 1, 1⟩, ⟨⟨0, 0, 1, 1⟩, [Cell.default]⟩,
        2 ^ 64 - 1⟩) = 0 := by
  refine ⟨by norm_num, ?_⟩
  have h := frame_count_wraps
    ⟨none, ⟨0, 0, 1, 1⟩, ⟨⟨0, 0, 1, 1⟩, [Cell.default]⟩, 2 ^ 64 - 1⟩ (by norm_num)
  simpa using h

/-- C6: `size()` returns the viewport area fixed for the cycle, and no
sequence of frame operations (`set_cursor`, observers, or drawing through
`buffer_mut`) changes the `viewport_area` field, so repeated `size()`
calls within one cycle return equal areas. -/
theorem viewport_area_stable (f : Frame) (ops : List FrameOp) :
    f.size = f.viewport_area ∧ (f.applyOps ops).viewport_area = f.viewport_area ∧
      (f.applyOps ops).size = f.size := by
  refine ⟨rfl, ?_, ?_⟩ <;>
  · induction ops generalizing f with
    | nil => rfl
    | cons op rest ih =>
      have hstep : (f.applyOp op).viewport_area = f.viewport_area := by
        cases op <;> rfl
      simpa [Frame.applyOps, Frame.size, hstep] using ih (f.applyOp op)

/-- C8: `buffer_mut()` returns the frame's own current canvas (the buffer
the frame was constructed over), and the call itself leaves the cursor
intent, viewport area, and sequence count unchanged. -/
theorem buffer_mut_exclusive_access (f : Frame) :
    (f.buffer_mut).1 = f.buffer ∧
      (f.buffer_mut).2.cursor_position = f.cursor_position ∧
      (f.buffer_mut).2.viewport_area = f.viewport_area ∧
      (f.buffer_mut).2.count = f.count := ⟨rfl, rfl, rfl, rfl⟩

/-- C9: `set_cursor` performs no coordinate validation: for every frame
and every pair `(x, y)` in the full `u16 × u16` range — in particular for
coordinates outside the frame's viewport area — the call succeeds and
records `some (x, y)`. -/
theorem set_cursor_no_validation (f : Frame) (x y : Nat)
    (hx : x < 2 ^ 16) (hy : y < 2 ^ 16) :
    (f.set_cursor x y).cursor_position = some (x, y) := rfl

/-- C9 witness: a frame with a `10 × 10` viewport accepts the
out-of-viewport coordinate `(500, 700)` and records it verbatim. -/
theorem set_cursor_no_validation_witness :
    (500 : Nat) < 2 ^ 16 ∧ (700 : Nat) < 2 ^ 16 ∧
      (Frame.set_cursor
        ⟨none, ⟨0, 0, 10, 10⟩, ⟨⟨0, 0, 10, 10⟩, List.replicate 100 Cell.default⟩, 0⟩
        500 700).cursor_position = some (500, 700) :=
  ⟨by norm_num, by norm_num,
    set_cursor_no_validation
      ⟨none, ⟨0, 0, 10, 10⟩, ⟨⟨0, 0, 10, 10⟩, List.replicate 100 Cell.default⟩, 0⟩
      500 700 (by norm_num) (by norm_num)⟩

/-- C10: `size()` and `count()` are pure observers: applying either leaves
every field of the frame unchanged, and two consecutive calls to the same
observer with no intervening mutation return equal results. -/
theorem observers_pure (f : Frame) :
    f.applyOp FrameOp.size = f ∧ f.applyOp FrameOp.count = f ∧
      (f.applyOp FrameOp.size).size = f.size ∧
      (f.applyOp FrameOp.count).count = f.count := ⟨rfl, rfl, rfl, rfl⟩

theorem Buffer.setCell_area (b : Buffer) (x y : Nat) (c : Cell) :
    (b.setCell x y c).area = b.area := by
  unfold Buffer.setCell
  cases b.indexOf x y <;> rfl

theorem Buffer.setCell_length (b : Buffer) (x y : Nat) (c : Cell) :
    (b.setCell x y c).content.length = b.content.length := by
  unfold Buffer.setCell
  cases b.indexOf x y <;> simp

theorem Buffer.setCell_wf (b : Buffer) (x y : Nat) (c : Cell) (h : b.wf) :
    (b.setCell x y c).wf := by
  unfold Buffer.wf at h ⊢
  rw [Buffer.setCell_length, Buffer.setCell_area]
  exact h

theorem Buffer.indexOf_setCell (b : Buffer) (x y cx cy : Nat) (c : Cell) :
    (b.setCell x y c).indexOf cx cy = b.indexOf cx cy := by
  unfold Buffer.setCell
  cases b.indexOf x y <;> rfl

theorem Buffer.setStringAux_area (cs : List Char) (st : Style) :
    ∀ (b : Buffer) (x y : Nat), (b.setStringAux x y cs st).area = b.area := by
  induction cs with
  | nil => intro b x y; rfl
  | cons c rest ih =>
    intro b x y
    simp only [Buffer.setStringAux]
    split
    · rw [ih, Buffer.setCell_area]
    · rfl

theorem Buffer.setStringAux_wf (cs : List Char) (st : Style) :
    ∀ (b : Buffer) (x y : Nat), b.wf → (b.setStringAux x y cs st).wf := by
  induction cs with
  | nil => intro b x y h; exact h
  | cons c rest ih =>
    intro b x y h
    simp only [Buffer.setStringAux]
    split
    · exact ih _ _ _ (Buffer.setCell_wf b x y ⟨c, st⟩ h)
    · exact h

theorem Buffer.indexOf_bounds (b : Buffer) (x y : Nat) (h : (b.indexOf x y).isSome) :
    b.area.x ≤ x ∧ x < b.area.right ∧ b.area.y ≤ y ∧ y < b.area.bottom := by
  unfold Buffer.indexOf at h
  split at h
  · assumption
  · simp at h

theorem Buffer.indexOf_lt_length (b : Buffer) (x y i : Nat) (hwf : b.wf)
    (h : b.indexOf x y = some i) : i < b.content.length := by
  unfold Buffer.indexOf at h
  split at h
  · rename_i hc
    obtain ⟨h1, h2, h3, h4⟩ := hc
    injection h with h
    subst h
    rw [hwf]
    unfold Rect.right at h2
    unfold Rect.bottom at h4
    calc (y - b.area.y) * b.area.width + (x - b.area.x)
        < (y - b.area.y) * b.area.width + b.area.width := by omega
      _ = (y - b.area.y + 1) * b.area.width := by ring
      _ ≤ b.area.height * b.area.width := Nat.mul_le_mul_right _ (by omega)
      _ = b.area.width * b.area.height := Nat.mul_comm _ _
  · exact absurd h (by simp)

theorem rowmajor_inj (w r1 c1 r2 c2 : Nat) (h1 : c1 < w) (h2 : c2 < w)
    (h : r1 * w + c1 = r2 * w + c2) : r1 = r2 ∧ c1 = c2 := by
  rcases Nat.lt_trichotomy r1 r2 with hlt | heq | hgt
  · exfalso
    have hcontra : r1 * w + c1 < r2 * w + c2 :=
      calc r1 * w + c1 < r1 * w + w := by omega
        _ = (r1 + 1) * w := by ring
        _ ≤ r2 * w := Nat.mul_le_mul_right _ hlt
        _ ≤ r2 * w + c2 := Nat.le_add_right _ _
    omega
  · subst heq
    exact ⟨rfl, Nat.add_left_cancel h⟩
  · exfalso
    have hcontra : r2 * w + c2 < r1 * w + c1 :=
      calc r2 * w + c2 < r2 * w + w := by omega
        _ = (r2 + 1) * w := by ring
        _ ≤ r1 * w := Nat.mul_le_mul_right _ hgt
        _ ≤ r1 * w + c1 := Nat.le_add_right _ _
    omega

theorem Buffer.indexOf_inj (b : Buffer) (x y x' y' i : Nat)
    (h : b.indexOf x y = some i) (h' : b.indexOf x' y' = some i) :
    x = x' ∧ y = y' := by
  unfold Buffer.indexOf at h h'
  split at h
  · split at h'
    · rename_i hc hc'
      obtain ⟨a1, a2, a3, a4⟩ := hc
      obtain ⟨b1, b2, b3, b4⟩ := hc'
      injection h with h
      injection h' with h'
      unfold Rect.right at a2 b2
      unfold Rect.bottom at a4 b4
      have heq : (y - b.area.y) * b.area.width + (x - b.area.x)
          = (y' - b.area.y) * b.area.width + (x' - b.area.x) := by omega
      have hinj := rowmajor_inj b.area.width (y - b.area.y) (x - b.area.x)
        (y' - b.area.y) (x' - b.area.x) (by omega) (by omega) heq
      omega
    · exact absurd h' (by simp)
  · exact absurd h (by simp)

theorem Buffer.getCell_isSome_indexOf (b : Buffer) (x y : Nat)
    (h : (b.getCell x y).isSome) : (b.indexOf x y).isSome := by
  unfold Buffer.getCell at h
  cases hI : b.indexOf x y with
  | none => rw [hI] at h; simp at h
  | some i => simp

theorem Buffer.getCell_setCell_self (b : Buffer) (x y i : Nat) (c : Cell) (hwf : b.wf)
    (h : b.indexOf x y = some i) :
    (b.setCell x y c).getCell x y = some c := by
  have hlen : i < b.content.length := Buffer.indexOf_lt_length b x y i hwf h
  unfold Buffer.setCell
  rw [h]
  unfold Buffer.getCell
  have hI : ({ b with content := b.content.set i c } : Buffer).indexOf x y
      = b.indexOf x y := rfl
  rw [hI, h]
  exact List.getElem?_set_self (by simpa using hlen)

theorem Buffer.getCell_setCell_ne (b : Buffer) (x y cx cy : Nat) (c : Cell)
    (hne : cx ≠ x ∨ cy ≠ y) :
    (b.setCell x y c).getCell cx cy = b.getCell cx cy := by
  unfold Buffer.setCell
  cases hI : b.indexOf x y with
  | none => rfl
  | some i =>
    unfold Buffer.getCell
    have hsame : ({ b with content := b.content.set i c } : Buffer).indexOf cx cy
        = b.indexOf cx cy := rfl
    rw [hsame]
    cases hJ : b.indexOf cx cy with
    | none => rfl
    | some j =>
      have hij : i ≠ j := by
        intro hij
        subst hij
        have := Buffer.indexOf_inj b x y cx cy i hI hJ
        tauto
      exact List.getElem?_set_ne hij

theorem Buffer.setStringAux_getCell_untouched (cs : List Char) (st : Style) :
    ∀ (b : Buffer) (x y cx cy : Nat),
      (cy ≠ y ∨ cx < x ∨ x + cs.length ≤ cx) →
      (b.setStringAux x y cs st).getCell cx cy = b.getCell cx cy := by
  induction cs with
  | nil => intro b x y cx cy _; rfl
  | cons c rest ih =>
    intro b x y cx cy h
    simp only [List.length_cons] at h
    simp only [Buffer.setStringAux]
    split
    · have hih : cy ≠ y ∨ cx < x + 1 ∨ x + 1 + rest.length ≤ cx := by
        rcases h with h | h | h
        · exact Or.inl h
        · exact Or.inr (Or.inl (by omega))
        · exact Or.inr (Or.inr (by omega))
      rw [ih (b.setCell x y ⟨c, st⟩) (x + 1) y cx cy hih]
      have hne : cx ≠ x ∨ cy ≠ y := by
        rcases h with h | h | h
        · exact Or.inr h
        · exact Or.inl (by omega)
        · exact Or.inl (by omega)
      exact Buffer.getCell_setCell_ne b x y cx cy ⟨c, st⟩ hne
    · rfl

theorem Buffer.setStringAux_getCell_written (cs : List Char) (st : Style) :
    ∀ (b : Buffer) (x y i : Nat) (ch : Char), b.wf →
      cs[i]? = some ch → (b.indexOf (x + i) y).isSome →
      (b.setStringAux x y cs st).getCell (x + i) y = some ⟨ch, st⟩ := by
  induction cs with
  | nil => intro b x y i ch _ hch _; simp at hch
  | cons c rest ih =>
    intro b x y i ch hwf hch hidx
    have hbounds := Buffer.indexOf_bounds b (x + i) y hidx
    simp only [Buffer.setStringAux]
    rw [if_pos (by unfold Rect.right at hbounds ⊢; omega)]
    cases i with
    | zero =>
      have hc : c = ch := by simpa using hch
      subst hc
      obtain ⟨j, hj⟩ := Option.isSome_iff_exists.mp hidx
      rw [Buffer.setStringAux_getCell_untouched rest st _ (x + 1) y (x + 0) y
        (Or.inr (Or.inl (by omega)))]
      exact Buffer.getCell_setCell_self b x y j ⟨c, st⟩ hwf hj
    | succ i' =>
      have hwf' : (b.setCell x y ⟨c, st⟩).wf := Buffer.setCell_wf b x y ⟨c, st⟩ hwf
      have hch' : rest[i']? = some ch := by simpa using hch
      have hidx' : ((b.setCell x y ⟨c, st⟩).indexOf (x + 1 + i') y).isSome := by
        rw [Buffer.indexOf_setCell]
        have he : x + 1 + i' = x + (i' + 1) := by omega
        rw [he]
        exact hidx
      have hres := ih (b.setCell x y ⟨c, st⟩) (x + 1) y i' ch hwf' hch' hidx'
      have he : x + (i' + 1) = x + 1 + i' := by omega
      rw [he]
      exact hres

/-- C2 counterexample: rendering `"Hello World"` with `render_str` into the
5-wide area `(0, 0, 5, 1)` of a 10-wide canvas writes `'W'` at column 6 —
a column at distance ≥ the area's width from the area's origin — over a
cell that was previously the default blank.  The run is therefore not
clipped at the area's right edge: characters beyond the area's width are
written as long as they fit inside the canvas. -/
theorem render_str_area_clip_cex :
    Rect.right ⟨0, 0, 5, 1⟩ ≤ 6 ∧
      Buffer.getCell ⟨⟨0, 0, 10, 1⟩, List.replicate 10 Cell.default⟩ 6 0
        = some Cell.default ∧
      (render_str "Hello World" ⟨0, 0, 5, 1⟩
        ⟨⟨0, 0, 10, 1⟩, List.replicate 10 Cell.default⟩).getCell 6 0
        = some ⟨'W', Style.default⟩ := by
  refine ⟨by decide, by decide, by decide⟩

/-- C2 (amended): for every string, area and well-formed buffer,
`render_str` writes the characters of the string left-to-right as a single
default-styled run starting at the area's origin `(A.x, A.y)`, and the run
is clipped at the canvas's (buffer's) right edge — not at the area's right
edge: the area contributes only its origin.  Precisely: the canvas keeps
its area; every in-bounds cell `(A.x + i, A.y)` with `i` a valid index
into the string receives the `i`-th character with the default style; and
every cell on another row, left of the origin, or past the end of the
string is unchanged (cells past the canvas's right edge do not exist, so
nothing is written there). -/
theorem render_str_run_canvas_clipped (s : String) (A : Rect) (b : Buffer)
    (hwf : b.wf) :
    (render_str s A b).area = b.area ∧
      (∀ i ch, (s.toList)[i]? = some ch → (b.getCell (A.x + i) A.y).isSome →
        (render_str s A b).getCell (A.x + i) A.y = some ⟨ch, Style.default⟩) ∧
      (∀ cx cy, cy ≠ A.y ∨ cx < A.x ∨ A.x + s.toList.length ≤ cx →
        (render_str s A b).getCell cx cy = b.getCell cx cy) := by
  refine ⟨Buffer.setStringAux_area s.toList Style.default b A.x A.y, ?_, ?_⟩
  · intro i ch hch hsome
    exact Buffer.setStringAux_getCell_written s.toList Style.default b A.x A.y i ch
      hwf hch (Buffer.getCell_isSome_indexOf b (A.x + i) A.y hsome)
  · intro cx cy h
    exact Buffer.setStringAux_getCell_untouched s.toList Style.default b A.x A.y cx cy h

/-- C2 witness: the spec's scenario with the area's right edge on the
canvas's right edge — `"Hello World"` into a 5-wide canvas at its full
5-wide area keeps exactly `"Hello"`: position 4 reads back `'o'`. -/
theorem render_str_run_canvas_clipped_witness :
    Buffer.wf ⟨⟨0, 0, 5, 1⟩, List.replicate 5 Cell.default⟩ ∧
      (render_str "Hello World" ⟨0, 0, 5, 1⟩
        ⟨⟨0, 0, 5, 1⟩, List.replicate 5 Cell.default⟩).getCell 4 0
        = some ⟨'o', Style.default⟩ :=
  ⟨by decide,
    (render_str_run_canvas_clipped "Hello World" ⟨0, 0, 5, 1⟩
      ⟨⟨0, 0, 5, 1⟩, List.replicate 5 Cell.default⟩ (by decide)).2.1 4 'o'
      (by decide) (by decide)⟩

/-- C7: a drawing call cannot fail.  The draw-contract embeddings
(`Widget.render`, `WidgetRef.render_ref`, and the blanket delegation) are
total buffer transformers by type; for the primitive `render_str` and for
every individual canvas write `setCell`, every input — including areas and
coordinates entirely outside the canvas — yields a well-formed canvas with
no error branch taken. -/
theorem drawing_cannot_fail (s : String) (A : Rect) (b : Buffer) (hwf : b.wf) :
    (render_str s A b).wf ∧ (render_str s A b).area = b.area ∧
      (∀ (w : WidgetRef) (area : Rect) (buf : Buffer),
        (w.toWidget).render area buf = w.render_ref area buf) ∧
      ∀ (x y : Nat) (c : Cell), (b.setCell x y c).wf := by
  refine ⟨?_, Buffer.setStringAux_area s.toList Style.default b A.x A.y,
    fun w area buf => rfl, fun x y c => Buffer.setCell_wf b x y c hwf⟩
  exact Buffer.setStringAux_wf s.toList Style.default b A.x A.y hwf

/-- C7 witness: a blank 5×1 canvas is well-formed, and drawing
`"Hello World"` into it at an area lying entirely outside the canvas
still succeeds and leaves a well-formed canvas. -/
theorem drawing_cannot_fail_witness :
    Buffer.wf ⟨⟨0, 0, 5, 1⟩, List.replicate 5 Cell.default⟩ ∧
      Buffer.wf (render_str "Hello World" ⟨7, 9, 3, 2⟩
        ⟨⟨0, 0, 5, 1⟩, List.replicate 5 Cell.default⟩) :=
  ⟨by decide,
    (drawing_cannot_fail "Hello World" ⟨7, 9, 3, 2⟩
      ⟨⟨0, 0, 5, 1⟩, List.replicate 5 Cell.default⟩ (by decide)).1⟩
